import Mathlib

/-!
Verification of the FloatChat ARGO profile ingestion and derived-quantity
engine.  The Python sources are shallowly embedded here:

* `src/advanced_analytics/profile_analytics.py`
  (`calculate_thermocline_advanced` and its helpers) is modelled over lists
  of rows; a pandas `NaN` entry is an `Option` that is `none`, machine
  floats become exact rationals.
* `src/data_processing/netcdf_extractor.py` (`extract_profiles`,
  `_julian_to_datetime`) and `src/data_processing/netcdf_exporter.py`
  (`_write_data`) are modelled over an explicit archive structure: a NetCDF
  cell that holds the fill value reads back as `NaN` through xarray and is
  represented by `none`.
* Timestamps are represented as rational seconds since the ARGO epoch
  1950-01-01T00:00:00Z, so the epoch itself is `0`.
-/

namespace FloatChat

/-- One row of the tabular data handed to `calculate_thermocline_advanced`.
A `NaN` entry of the pressure or temperature column is `none`. -/
structure Row where
  pressure : Option ℚ
  temperature : Option ℚ
deriving DecidableEq

/-- A row after `dropna(subset=['pressure', 'temperature'])`: both fields
are known to be present. -/
structure NRow where
  pressure : ℚ
  temperature : ℚ
deriving DecidableEq

/-- Default row used to totalise positional indexing (`List.getD`); every
access in the development stays in bounds. -/
def dfltRow : NRow := ⟨0, 0⟩

/-- Comparison used by `df.sort_values('pressure')`: rows with a `NaN`
pressure sort after every concrete pressure (pandas puts `NaN` last). -/
def rowLe (a b : Row) : Prop :=
  match a.pressure, b.pressure with
  | some p, some q => p ≤ q
  | some _, none => True
  | none, some _ => False
  | none, none => True

instance : DecidableRel rowLe := fun a b => by
  unfold rowLe
  cases a.pressure <;> cases b.pressure <;> infer_instance

instance : IsTotal Row rowLe := by
  constructor
  intro a b
  unfold rowLe
  cases a.pressure <;> cases b.pressure <;> simp [le_total]

instance : IsTrans Row rowLe := by
  constructor
  intro a b c hab hbc
  unfold rowLe at *
  cases ha : a.pressure <;> cases hb : b.pressure <;> cases hc : c.pressure <;>
    simp_all
  exact le_trans hab hbc

/-- Embedding of `df.sort_values('pressure')` (line 377). -/
def sortByPressure (l : List Row) : List Row := l.insertionSort rowLe

/-- Typed view of a row whose pressure and temperature are both present. -/
def toNRow? (r : Row) : Option NRow :=
  match r.pressure, r.temperature with
  | some p, some t => some ⟨p, t⟩
  | _, _ => none

/-- Embedding of `df.dropna(subset=['pressure', 'temperature'])` (line 378). -/
def dropMissing (l : List Row) : List NRow := l.filterMap toNRow?

/-- Embedding of `df.drop_duplicates(subset=['pressure'])` (line 379): keep the first
occurrence of each pressure; `seen` accumulates the pressures kept so far. -/
def dedupPressure : List NRow → List ℚ → List NRow
  | [], _ => []
  | r :: rs, seen =>
    if r.pressure ∈ seen then dedupPressure rs seen
    else r :: dedupPressure rs (r.pressure :: seen)

/-- The normalization pipeline of `calculate_thermocline_advanced`
(lines 377-379): sort ascending by pressure, drop rows with a missing
pressure or temperature, de-duplicate on pressure keeping the first
occurrence. -/
def normalizeRows (l : List Row) : List NRow :=
  dedupPressure (dropMissing (sortByPressure l)) []

/-- Re-presenting a normalized row to the pipeline. -/
def NRow.toRow (r : NRow) : Row := ⟨some r.pressure, some r.temperature⟩

/-- Arithmetic mean of a series, as computed by pandas `.mean()`. -/
def meanQ (l : List ℚ) : ℚ := l.sum / (l.length : ℚ)

/-- Minimum of a series (`.min()`); `0` on an empty series, which the code
never queries. -/
def minQ : List ℚ → ℚ
  | [] => 0
  | q :: qs => qs.foldl min q

/-- Maximum of a series (`.max()`); `0` on an empty series, which the code
never queries. -/
def maxQ : List ℚ → ℚ
  | [] => 0
  | q :: qs => qs.foldl max q

/-- Minimum pressure of a normalized profile (`df['pressure'].min()`). -/
def minPres (d : List NRow) : ℚ := minQ (d.map (·.pressure))

/-- Maximum pressure of a normalized profile (`df['pressure'].max()`). -/
def maxPres (d : List NRow) : ℚ := maxQ (d.map (·.pressure))

/-- Gradient between two consecutive levels (lines 388-394): pairs whose
pressure difference is not greater than 1 contribute a zero gradient,
otherwise the absolute temperature change per unit pressure. -/
def gradStep (ab : NRow × NRow) : ℚ :=
  if 1 < ab.2.pressure - ab.1.pressure then
    |ab.2.temperature - ab.1.temperature| / (ab.2.pressure - ab.1.pressure)
  else 0

/-- The `temp_gradient` column: the first row's `diff()` is `NaN`, hence its
mask entry is false and its gradient is written as `0`. -/
def gradients (d : List NRow) : List ℚ :=
  match d with
  | [] => []
  | _ :: _ => 0 :: (d.zip d.tail).map gradStep

/-- The entries a centered window of size 3 with `min_periods=1` sees at
position `i`. -/
def window3 (g : List ℚ) (i : ℕ) : List ℚ :=
  if i = 0 then g.take 2 else (g.drop (i - 1)).take 3

/-- The `temp_gradient_smooth` column (lines 397-399):
`rolling(window=3, center=True, min_periods=1).mean()`. -/
def smooth3 (g : List ℚ) : List ℚ :=
  (List.range g.length).map fun i => meanQ (window3 g i)

/-- Smoothed gradient at positional index `j` of the normalized frame. -/
def smoothAt (d : List NRow) (j : ℕ) : ℚ := (smooth3 (gradients d)).getD j 0

/-- Positional indexes selected by `df.iloc[2:-2]` (line 402): everything
except the first two and the last two rows. -/
def middleIdx (n : ℕ) : List ℕ :=
  (List.range n).filter fun i => decide (2 ≤ i) && decide (i < n - 2)

/-- Index of the first occurrence of the maximum value (`idxmax`), folded
from the left with `best` as the current leader. -/
def idxmaxGo (f : ℕ → ℚ) : ℕ → List ℕ → ℕ
  | best, [] => best
  | best, j :: js => idxmaxGo f (if f best < f j then j else best) js

/-- Embedding of `_classify_thermocline_strength` (lines 521-538). -/
def classifyStrength (gradient : ℚ) : String :=
  if gradient < 1/20 then "weak"
  else if gradient < 3/20 then "moderate"
  else if gradient < 3/10 then "strong"
  else "very_strong"

/-- Consecutive differences of a series (`.diff()` without the leading
`NaN`, which pandas `mean()` skips anyway). -/
def consecDiffs (l : List ℚ) : List ℚ := (l.zip l.tail).map fun ab => ab.2 - ab.1

/-- Embedding of `df['pressure'].diff().mean()` (line 515). -/
def verticalResolution (d : List NRow) : ℚ :=
  (consecDiffs (d.map (·.pressure))).sum / ((d.length - 1 : ℕ) : ℚ)

/-- Embedding of `_calculate_thermocline_confidence` (lines 540-579). -/
def confidenceOf (n : ℕ) (strength resolution : ℚ) : String :=
  let score :=
    (if 50 < n then 3 else if 20 < n then 2 else if 10 < n then 1 else 0) +
    (if 3/20 < strength then 3 else if 2/25 < strength then 2
     else if 1/25 < strength then 1 else 0) +
    (if resolution < 5 then 2 else if resolution < 10 then 1 else 0)
  if 7 ≤ score then "high" else if 4 ≤ score then "medium" else "low"

/-- Interior indexes scanned by the temperature-inversion loop
(`for i in range(1, len(df) - 1)`, line 459): `1, ..., n - 2`. -/
def invScanIdx (n : ℕ) : List ℕ := List.range' 1 (n - 2)

/-- The inversion test at positional index `j` (lines 460-461): temperature
increases from the previous level and the pressure is below the 50 dbar
surface layer. -/
def invAt (d : List NRow) (j : ℕ) : Prop :=
  (d.getD (j - 1) dfltRow).temperature < (d.getD j dfltRow).temperature ∧
    50 < (d.getD j dfltRow).pressure

instance (d : List NRow) (j : ℕ) : Decidable (invAt d j) := by
  unfold invAt; infer_instance

/-- The success payload of `calculate_thermocline_advanced` (lines
474-519), with the fields of the returned dict. -/
structure ThermoSuccess where
  thermocline_depth_dbar : ℚ
  thermocline_strength_deg_per_m : ℚ
  thermocline_strength_label : String
  thermocline_width_m : ℚ
  thermocline_depth_temp_criterion_dbar : ℚ
  mixed_layer_depth_dbar : ℚ
  surface_temp_celsius : ℚ
  thermocline_temp_celsius : ℚ
  deep_temp_celsius : ℚ
  temp_range_celsius : ℚ
  is_seasonal : Bool
  stratification_N_squared : ℚ
  buoyancy_frequency_Hz : ℚ
  stability : String
  has_temperature_inversion : Bool
  inversion_depth_dbar : Option ℚ
  data_points : ℕ
  vertical_resolution_m : ℚ
  confidence : String
deriving DecidableEq

/-- Result of `calculate_thermocline_advanced`: either an error dict
(`success: False` with a reason) or the success dict. -/
inductive ThermoResult where
  | failure (error : String)
  | success (r : ThermoSuccess)
deriving DecidableEq

/-- Body of `calculate_thermocline_advanced` after the size guards, on the
normalized frame `d`, where `i :: is` is the non-empty middle slice
`df.iloc[2:-2]` (as positional indexes). -/
def thermoPayload (d : List NRow) (i : ℕ) (is : List ℕ) : ThermoSuccess :=
  let k := idxmaxGo (smoothAt d) i is
  let depth := (d.getD k dfltRow).pressure
  let strength := smoothAt d k
  let surfaceTemp := (d.headD dfltRow).temperature
  let depthAlt :=
    match d.find? (fun r => decide ((1 : ℚ)/2 < |r.temperature - surfaceTemp|)) with
    | some r => r.pressure
    | none => depth
  let zone := (d.zip (smooth3 (gradients d))).filter
    fun rs => decide (strength * (1/2) < rs.2)
  let zoneP := zone.map fun rs => rs.1.pressure
  let width := if 1 < zone.length then maxQ zoneP - minQ zoneP else 0
  let mld :=
    match d.find? (fun r => decide ((1 : ℚ)/5 < |r.temperature - surfaceTemp|)) with
    | some r => r.pressure
    | none => 10
  let surfaceLayer := d.filter fun r => decide (r.pressure ≤ 10)
  let surfaceTempMean :=
    if 0 < surfaceLayer.length then meanQ (surfaceLayer.map (·.temperature))
    else surfaceTemp
  let thermoclineLayer := d.filter fun r =>
    decide (depth - 25 ≤ r.pressure ∧ r.pressure ≤ depth + 25)
  let thermoclineTempMean :=
    if 0 < thermoclineLayer.length then meanQ (thermoclineLayer.map (·.temperature))
    else (d.getD k dfltRow).temperature
  let deepLayer := d.filter fun r => decide (500 ≤ r.pressure)
  let deepTempMean :=
    if 0 < deepLayer.length then meanQ (deepLayer.map (·.temperature))
    else (d.getLastD dfltRow).temperature
  let nsq := (981/100 : ℚ) / 1025 * (1/5000) * (-strength) * 100
  let invIdx := (invScanIdx d.length).find? fun j => decide (invAt d j)
  let invDepth : Option ℚ :=
    match invIdx with
    | none => none
    | some j =>
      if (d.getD j dfltRow).pressure = 0 then none
      else some (d.getD j dfltRow).pressure
  let resolution := verticalResolution d
  { thermocline_depth_dbar := depth
    thermocline_strength_deg_per_m := strength
    thermocline_strength_label := classifyStrength strength
    thermocline_width_m := width
    thermocline_depth_temp_criterion_dbar := depthAlt
    mixed_layer_depth_dbar := mld
    surface_temp_celsius := surfaceTempMean
    thermocline_temp_celsius := thermoclineTempMean
    deep_temp_celsius := deepTempMean
    temp_range_celsius := surfaceTempMean - deepTempMean
    is_seasonal := decide (depth < 100)
    stratification_N_squared := nsq
    buoyancy_frequency_Hz := if 0 < nsq then Rat.sqrt (max nsq 0) else 0
    stability := if 0 < nsq then "stable" else "unstable"
    has_temperature_inversion := invIdx.isSome
    inversion_depth_dbar := invDepth
    data_points := d.length
    vertical_resolution_m := resolution
    confidence := confidenceOf d.length strength resolution }

/-- Embedding of `calculate_thermocline_advanced` (lines 360-519): guards for an empty
frame, fewer than 10 normalized rows, and an empty middle slice, then the
success dict.  The function is total — the embedding returns a tagged
failure and never throws. -/
def calculate_thermocline_advanced (df : List Row) : ThermoResult :=
  if df.isEmpty then .failure "Insufficient data for thermocline calculation"
  else if (normalizeRows df).length < 10 then
    .failure "Not enough data points (minimum 10 required)"
  else
    match middleIdx (normalizeRows df).length with
    | [] => .failure "Insufficient middle layer data"
    | i :: is => .success (thermoPayload (normalizeRows df) i is)

/-- The mixed-layer depth carried by a result, when the call succeeded. -/
def ThermoResult.mldQ : ThermoResult → Option ℚ
  | .failure _ => none
  | .success r => some r.mixed_layer_depth_dbar

/-- Constructor for a fully-observed row. -/
def mkRow (p t : ℚ) : Row := ⟨some p, some t⟩

/-- Concrete 10-level profile with a thermocline, used to instantiate the
universally quantified theorems. -/
def wTen : List Row :=
  [mkRow 0 20, mkRow 10 20, mkRow 20 20, mkRow 30 19, mkRow 40 17,
   mkRow 50 15, mkRow 60 14, mkRow 70 13, mkRow 80 12, mkRow 90 11]

/-- Concrete 3-level profile: too short for the thermocline detector. -/
def wSmall : List Row := [mkRow 0 20, mkRow 10 19, mkRow 20 18]

/-- Concrete 10-level profile whose only temperature increase is at the
interior index 8 (pressure 160 dbar). -/
def wInv : List Row :=
  [mkRow 0 20, mkRow 20 19, mkRow 40 18, mkRow 60 17, mkRow 80 16,
   mkRow 100 15, mkRow 120 14, mkRow 140 13, mkRow 160 (27/2), mkRow 180 12]

/-- Concrete 10-level profile with uniform temperature whose pressures all
exceed 10 dbar: the MLD criterion never fires, so the code answers the
default 10 dbar, below the minimum pressure 100. -/
def cxUniform : List Row :=
  [mkRow 100 20, mkRow 110 20, mkRow 120 20, mkRow 130 20, mkRow 140 20,
   mkRow 150 20, mkRow 160 20, mkRow 170 20, mkRow 180 20, mkRow 190 20]

/-- Per-profile time value as read from the JULD variable: already a
native timestamp (numpy datetime64), a string, a numeric day-offset, or a
value whose float conversion raises. -/
inductive JuldValue where
  | datetime64 (t : ℚ)
  | strval (s : String)
  | numeric (x : ℚ)
  | unconvertible
deriving DecidableEq

/-- The ARGO reference epoch 1950-01-01T00:00:00Z.  Timestamps are
represented as rational seconds since this epoch, so it equals 0. -/
def argoEpoch : ℚ := 0

/-- Embedding of `_julian_to_datetime` (netcdf_extractor.py lines 87-105): native
timestamps pass through unchanged; strings go to the generic parser
`parse` (the embedding of `pd.to_datetime`, whose failure is `none` and is
caught by the surrounding try/except); any other value is a day-offset
added to the epoch; an unconvertible value falls back to the epoch. -/
def julianToDatetime (parse : String → Option ℚ) : JuldValue → ℚ
  | .datetime64 t => t
  | .strval s =>
    match parse s with
    | some t => t
    | none => argoEpoch
  | .numeric x => argoEpoch + x * 86400
  | .unconvertible => argoEpoch

/-- Time decoding written from the words of the spec (§4.1): pass through
native timestamps unchanged, parse string-typed fields generically, treat
other values as a day-offset added to the epoch, and fall back to the
epoch on any failure.  Kept separate from `julianToDatetime` so the two
can be compared. -/
def specTimeDecode (parse : String → Option ℚ) : JuldValue → ℚ
  | .datetime64 t => t
  | .strval s =>
    match parse s with
    | some t => t
    | none => argoEpoch
  | .numeric x => argoEpoch + x * 86400
  | .unconvertible => argoEpoch

/-- One decoded measurement row produced by `extract_profiles`: pressure,
temperature and salinity are always present (a level with any of them
`NaN` is skipped), QC flags are attached best-effort. -/
structure Meas where
  pressure : ℚ
  temperature : ℚ
  salinity : ℚ
  temp_qc : Option ℤ
  sal_qc : Option ℤ
deriving DecidableEq

/-- A profile as handed to the exporter: per-profile position and
timestamp plus the level rows. -/
structure Profile where
  latitude : ℚ
  longitude : ℚ
  timestamp : ℚ
  levels : List Meas
deriving DecidableEq

/-- One N_PROF slice of the archive.  Every per-level array has length
N_LEVELS; a cell holding the fill value reads back as `NaN` through
xarray and is `none` here. -/
structure ArchiveProfile where
  latitude : ℚ
  longitude : ℚ
  juld : JuldValue
  pres : List (Option ℚ)
  temp : List (Option ℚ)
  psal : List (Option ℚ)
  temp_qc : List (Option ℤ)
  sal_qc : List (Option ℤ)
deriving DecidableEq

/-- The archive: the N_LEVELS dimension and one slice per N_PROF index. -/
structure Archive where
  nLevels : ℕ
  profiles : List ArchiveProfile
deriving DecidableEq

/-- Comparison used by `profile_data.sort_values('pressure')` in
`_write_data`. -/
def measLe (a b : Meas) : Prop := a.pressure ≤ b.pressure

instance : DecidableRel measLe := fun a b =>
  inferInstanceAs (Decidable (a.pressure ≤ b.pressure))

instance : IsTotal Meas measLe := ⟨fun a b => le_total a.pressure b.pressure⟩

instance : IsTrans Meas measLe := ⟨fun _ _ _ h1 h2 => le_trans h1 h2⟩

/-- An N_LEVELS-long array: the written prefix followed by fill cells
(`_write_data` writes only the slice `[:n_levels]` of each variable). -/
def pad {α : Type} (n : ℕ) (l : List (Option α)) : List (Option α) :=
  l ++ List.replicate (n - l.length) none

/-- The N_LEVELS dimension chosen by `_create_dimensions`: the maximum
level count over the profiles. -/
def maxLevels (ps : List Profile) : ℕ :=
  ps.foldl (fun m p => max m p.levels.length) 0

/-- Truncation of an integer to the int8 range, as the cast into the
TEMP_QC/PSAL_QC variables (created `'i1'`) performs. -/
def wrap8 (v : ℤ) : ℤ := (v + 128) % 256 - 128

/-- What an int8 QC cell holding `v` looks like after the masked xarray
read of the extractor: the variables are created with `fill_value=9`, so a
stored 9 — whether an untouched fill cell or a legitimately written flag
9 — reads back as `NaN` (`none`); any other value is readable. -/
def qcCellView (v : ℤ) : Option ℤ := if v = 9 then none else some v

/-- The value a written QC cell presents to the reader: a present flag is
cast to int8; an absent flag is a `NaN` in the written float column, whose
cast to int8 is unspecified — the surrounding development quantifies over
that `garbage` value.  Either way a resulting 9 aliases the fill and reads
back masked. -/
def encodeQcCell (garbage : ℤ) (q : Option ℤ) : Option ℤ :=
  qcCellView (wrap8 (q.getD garbage))

/-- The QC flag values that survive the int8 write/masked-read channel:
the archive's flag set {0,1,2,3,4,5,8,9} without 9, which aliases the
fill value. -/
def qcWritableFlags : List ℤ := [0, 1, 2, 3, 4, 5, 8]

/-- Presence of the `temp_qc` column in the exported frame: a pandas
column exists when any row of the whole frame carries the key. -/
def hasTempQcCol (ps : List Profile) : Bool :=
  ps.any fun p => p.levels.any fun m => m.temp_qc.isSome

/-- Presence of the `sal_qc` column in the exported frame. -/
def hasSalQcCol (ps : List Profile) : Bool :=
  ps.any fun p => p.levels.any fun m => m.sal_qc.isSome

/-- Embedding of `_write_data` for one profile (netcdf_exporter.py lines 282-339):
sort the levels by pressure, re-encode the timestamp as a day-offset from
the 1950-01-01 epoch, and write each per-level variable padded to
N_LEVELS with fill cells.  A QC variable is written only when its column
exists (`writeT`/`writeS`); its cells pass through the int8/fill-masking
channel `encodeQcCell`, and an unwritten variable is all fill, reading
back as all `none`. -/
def encodeProfile (garbage : ℤ) (writeT writeS : Bool) (n : ℕ)
    (p : Profile) : ArchiveProfile :=
  let lv := p.levels.insertionSort measLe
  { latitude := p.latitude
    longitude := p.longitude
    juld := JuldValue.numeric (p.timestamp / 86400)
    pres := pad n (lv.map fun m => some m.pressure)
    temp := pad n (lv.map fun m => some m.temperature)
    psal := pad n (lv.map fun m => some m.salinity)
    temp_qc :=
      if writeT then pad n (lv.map fun m => encodeQcCell garbage m.temp_qc)
      else List.replicate n none
    sal_qc :=
      if writeS then pad n (lv.map fun m => encodeQcCell garbage m.sal_qc)
      else List.replicate n none }

/-- Embedding of the `export_to_netcdf` data writing, modulo grouping: one archive slice
per profile, all sharing the N_LEVELS dimension and the frame-wide QC
column presence. -/
def encodeArchive (garbage : ℤ) (ps : List Profile) : Archive :=
  { nLevels := maxLevels ps
    profiles := ps.map
      (encodeProfile garbage (hasTempQcCol ps) (hasSalQcCol ps)
        (maxLevels ps)) }

/-- The level loop of `extract_profiles` (netcdf_extractor.py lines
54-81): for each level index below N_LEVELS, skip the level when pressure,
temperature or salinity is `NaN`, otherwise build the measurement row and
attach the QC flags best-effort.  The two flags sit in one try/except:
the TEMP flag is converted first, so when its cell is unreadable (`none`,
a masked fill) the exception skips both flags, and when only the PSAL
cell is unreadable the already-assigned TEMP flag survives alone. -/
def decodeLevels (n : ℕ) (ap : ArchiveProfile) : List Meas :=
  (List.range n).filterMap fun i =>
    match ap.pres.getD i none, ap.temp.getD i none, ap.psal.getD i none with
    | some p, some t, some s =>
      some { pressure := p, temperature := t, salinity := s,
             temp_qc := ap.temp_qc.getD i none,
             sal_qc :=
               match ap.temp_qc.getD i none with
               | none => none
               | some _ => ap.sal_qc.getD i none }
    | _, _, _ => none

/-- The profile loop of `extract_profiles`: position, decoded timestamp
and the level rows of one N_PROF slice. -/
def decodeProfile (parse : String → Option ℚ) (n : ℕ)
    (ap : ArchiveProfile) : Profile :=
  { latitude := ap.latitude
    longitude := ap.longitude
    timestamp := julianToDatetime parse ap.juld
    levels := decodeLevels n ap }

/-- Embedding of `extract_profiles` over the whole archive. -/
def decodeArchive (parse : String → Option ℚ) (a : Archive) : List Profile :=
  a.profiles.map (decodeProfile parse a.nLevels)

/-- The physical core of a measurement, without its QC flags. -/
def coreOf (m : Meas) : ℚ × ℚ × ℚ := (m.pressure, m.temperature, m.salinity)

/-- QC filtering written from the words of the spec (§4.2): with an
accepted-code set supplied, measurements whose present QC flags fall
outside the set are dropped; absent QC flags pass through.  Kept separate
so it can be compared with what the extractor actually does. -/
def specQcFilter (accepted : List ℤ) (ms : List Meas) : List Meas :=
  ms.filter fun m =>
    (m.temp_qc.all fun q => decide (q ∈ accepted)) &&
    (m.sal_qc.all fun q => decide (q ∈ accepted))

/-- Archive slice with one fully valid level whose QC flags are 4 (bad). -/
def apBadQc : ArchiveProfile :=
  { latitude := 0, longitude := 0, juld := JuldValue.numeric 0,
    pres := [some 5], temp := [some 20], psal := [some 35],
    temp_qc := [some 4], sal_qc := [some 4] }

/-- The measurement the extractor produces from `apBadQc`. -/
def mBadQc : Meas :=
  { pressure := 5, temperature := 20, salinity := 35,
    temp_qc := some 4, sal_qc := some 4 }

/-- Concrete normalized profile collection whose QC flags are all present
with writable values, used to instantiate the round-trip theorem. -/
def psRoundQc : List Profile :=
  [{ latitude := 15, longitude := 70, timestamp := 86400000,
     levels :=
      [{ pressure := 10, temperature := 20, salinity := 35,
         temp_qc := some 1, sal_qc := some 1 },
       { pressure := 50, temperature := 18, salinity := 35,
         temp_qc := some 1, sal_qc := some 2 }] }]

/-- Concrete normalized one-level collection whose TEMP flag is the
legitimate archive flag 9 (missing): written into the int8 variable it
aliases `fill_value=9`, reads back masked, and the shared try/except then
drops the PSAL flag with it. -/
def psQc9 : List Profile :=
  [{ latitude := 0, longitude := 0, timestamp := 0,
     levels :=
      [{ pressure := 10, temperature := 20, salinity := 35,
         temp_qc := some 9, sal_qc := some 1 }] }]

/-- Default measurement used to totalise head access in closed concrete
statements. -/
def dfltMeas : Meas :=
  { pressure := 0, temperature := 0, salinity := 0,
    temp_qc := none, sal_qc := none }

/-- Default profile used to totalise head access in closed concrete
statements. -/
def dfltProfile : Profile :=
  { latitude := 0, longitude := 0, timestamp := 0, levels := [] }

attribute [local semireducible] Rat.mul Rat.inv Rat.add Rat.sub

theorem dedupPressure_sublist : ∀ (l : List NRow) (seen : List ℚ),
    (dedupPressure l seen).Sublist l := by
  intro l
  induction l with
  | nil => intro seen; simp [dedupPressure]
  | cons r rs ih =>
    intro seen
    unfold dedupPressure
    by_cases h : r.pressure ∈ seen
    · simp only [if_pos h]
      exact (ih seen).trans (List.sublist_cons_self r rs)
    · simp only [if_neg h]
      exact (ih (r.pressure :: seen)).cons₂ r

theorem mem_dedupPressure_not_seen : ∀ (l : List NRow) (seen : List ℚ)
    (r : NRow), r ∈ dedupPressure l seen → r.pressure ∉ seen := by
  intro l
  induction l with
  | nil => intro seen r h; simp [dedupPressure] at h
  | cons a rs ih =>
    intro seen r h
    unfold dedupPressure at h
    by_cases ha : a.pressure ∈ seen
    · simp only [if_pos ha] at h
      exact ih seen r h
    · simp only [if_neg ha, List.mem_cons] at h
      rcases h with rfl | h
      · exact ha
      · have := ih _ r h
        intro hc
        exact this (List.mem_cons_of_mem _ hc)

theorem dedupPressure_pairwise_ne : ∀ (l : List NRow) (seen : List ℚ),
    (dedupPressure l seen).Pairwise (fun a b => a.pressure ≠ b.pressure) := by
  intro l
  induction l with
  | nil => intro seen; simp [dedupPressure]
  | cons a rs ih =>
    intro seen
    unfold dedupPressure
    by_cases ha : a.pressure ∈ seen
    · simp only [if_pos ha]; exact ih seen
    · simp only [if_neg ha]
      refine List.Pairwise.cons ?_ (ih _)
      intro b hb
      have := mem_dedupPressure_not_seen rs (a.pressure :: seen) b hb
      intro hc
      exact this (by rw [← hc]; exact List.mem_cons_self _ _)

theorem toNRow?_eq_some {r : Row} {m : NRow} (h : toNRow? r = some m) :
    r.pressure = some m.pressure ∧ r.temperature = some m.temperature := by
  unfold toNRow? at h
  cases hp : r.pressure with
  | none => rw [hp] at h; cases r.temperature <;> simp at h
  | some p =>
    cases ht : r.temperature with
    | none => rw [hp, ht] at h; simp at h
    | some t =>
      rw [hp, ht] at h
      simp only [Option.some_inj] at h
      rw [← h]
      exact ⟨rfl, rfl⟩

theorem dropMissing_sorted_pairwise_le (l : List Row) :
    (dropMissing (sortByPressure l)).Pairwise
      (fun a b : NRow => a.pressure ≤ b.pressure) := by
  have hs : (sortByPressure l).Pairwise rowLe := List.sorted_insertionSort rowLe l
  unfold dropMissing
  rw [List.pairwise_filterMap]
  refine hs.imp ?_
  intro a b hab m hm m' hm'
  rw [Option.mem_def] at hm hm'
  obtain ⟨hpa, -⟩ := toNRow?_eq_some hm
  obtain ⟨hpb, -⟩ := toNRow?_eq_some hm'
  unfold rowLe at hab
  rw [hpa, hpb] at hab
  exact hab

theorem normalizeRows_pairwise_lt (l : List Row) :
    (normalizeRows l).Pairwise (fun a b : NRow => a.pressure < b.pressure) := by
  unfold normalizeRows
  have hle : (dedupPressure (dropMissing (sortByPressure l)) []).Pairwise
      (fun a b : NRow => a.pressure ≤ b.pressure) :=
    List.Pairwise.sublist (dedupPressure_sublist _ _)
      (dropMissing_sorted_pairwise_le l)
  have hne := dedupPressure_pairwise_ne (dropMissing (sortByPressure l)) []
  have := hle.and hne
  exact this.imp fun h => lt_of_le_of_ne h.1 h.2

theorem toNRow?_toRow (r : NRow) : toNRow? r.toRow = some r := by
  cases r; rfl

theorem dedupPressure_eq_self : ∀ (l : List NRow) (seen : List ℚ),
    l.Pairwise (fun a b => a.pressure ≠ b.pressure) →
    (∀ r ∈ l, r.pressure ∉ seen) → dedupPressure l seen = l := by
  intro l
  induction l with
  | nil => intro seen _ _; rfl
  | cons a rs ih =>
    intro seen hpw hseen
    unfold dedupPressure
    rw [if_neg (hseen a (List.mem_cons_self a rs))]
    congr 1
    refine ih _ hpw.of_cons ?_
    intro r hr
    rw [List.mem_cons]
    push_neg
    refine ⟨?_, hseen r (List.mem_cons_of_mem a hr)⟩
    intro hc
    exact (List.pairwise_cons.1 hpw).1 r hr hc.symm

/-- C4: after normalization (sort by pressure, drop rows missing pressure or
temperature, de-duplicate on pressure) the sequence of pressure values is
strictly increasing. -/
theorem normalized_pressures_strictly_increasing (l : List Row) :
    (normalizeRows l).Pairwise (fun a b : NRow => a.pressure < b.pressure) :=
  normalizeRows_pairwise_lt l

/-- C7: the normalization pipeline is idempotent — applying it to its own
(re-presented) output changes nothing. -/
theorem normalize_idempotent (l : List Row) :
    normalizeRows ((normalizeRows l).map NRow.toRow) = normalizeRows l := by
  set m := normalizeRows l with hm
  have hlt : m.Pairwise (fun a b : NRow => a.pressure < b.pressure) := by
    rw [hm]; exact normalizeRows_pairwise_lt l
  have hsorted : (m.map NRow.toRow).Pairwise rowLe := by
    rw [List.pairwise_map]
    exact hlt.imp fun h => le_of_lt h
  unfold normalizeRows sortByPressure
  rw [List.Sorted.insertionSort_eq hsorted]
  have hdrop : dropMissing (m.map NRow.toRow) = m := by
    unfold dropMissing
    rw [List.filterMap_map]
    have hcomp : toNRow? ∘ NRow.toRow = some := funext fun r => toNRow?_toRow r
    rw [hcomp, List.filterMap_some]
  rw [hdrop]
  apply dedupPressure_eq_self
  · exact hlt.imp fun h => ne_of_lt h
  · simp

theorem foldl_min_le_init : ∀ (l : List ℚ) (a : ℚ), l.foldl min a ≤ a := by
  intro l
  induction l with
  | nil => intro a; exact le_refl a
  | cons b l ih =>
    intro a
    exact le_trans (ih (min a b)) (min_le_left a b)

theorem foldl_min_le_mem : ∀ (l : List ℚ) (a x : ℚ), x ∈ l → l.foldl min a ≤ x := by
  intro l
  induction l with
  | nil => intro a x hx; cases hx
  | cons b l ih =>
    intro a x hx
    rcases List.mem_cons.1 hx with rfl | hx
    · exact le_trans (foldl_min_le_init l (min a x)) (min_le_right a x)
    · exact ih (min a b) x hx

theorem le_foldl_max_init : ∀ (l : List ℚ) (a : ℚ), a ≤ l.foldl max a := by
  intro l
  induction l with
  | nil => intro a; exact le_refl a
  | cons b l ih =>
    intro a
    exact le_trans (le_max_left a b) (ih (max a b))

theorem mem_le_foldl_max : ∀ (l : List ℚ) (a x : ℚ), x ∈ l → x ≤ l.foldl max a := by
  intro l
  induction l with
  | nil => intro a x hx; cases hx
  | cons b l ih =>
    intro a x hx
    rcases List.mem_cons.1 hx with rfl | hx
    · exact le_trans (le_max_right a x) (le_foldl_max_init l (max a x))
    · exact ih (max a b) x hx

theorem minQ_le_mem {l : List ℚ} {q : ℚ} (h : q ∈ l) : minQ l ≤ q := by
  cases l with
  | nil => cases h
  | cons a l =>
    unfold minQ
    rcases List.mem_cons.1 h with rfl | h
    · exact foldl_min_le_init l q
    · exact foldl_min_le_mem l a q h

theorem mem_le_maxQ {l : List ℚ} {q : ℚ} (h : q ∈ l) : q ≤ maxQ l := by
  cases l with
  | nil => cases h
  | cons a l =>
    unfold maxQ
    rcases List.mem_cons.1 h with rfl | h
    · exact le_foldl_max_init l q
    · exact mem_le_foldl_max l a q h

theorem idxmaxGo_mem (f : ℕ → ℚ) : ∀ (l : List ℕ) (b : ℕ),
    idxmaxGo f b l ∈ b :: l := by
  intro l
  induction l with
  | nil => intro b; exact List.mem_singleton.2 rfl
  | cons j js ih =>
    intro b
    unfold idxmaxGo
    by_cases h : f b < f j
    · rw [if_pos h]
      exact List.mem_cons_of_mem b (ih j)
    · rw [if_neg h]
      rcases List.mem_cons.1 (ih b) with hm | hm
      · rw [hm]
        exact List.mem_cons_self b (j :: js)
      · exact List.mem_cons_of_mem b (List.mem_cons_of_mem j hm)

theorem mem_middleIdx {n k : ℕ} : k ∈ middleIdx n ↔ 2 ≤ k ∧ k < n - 2 := by
  unfold middleIdx
  rw [List.mem_filter, List.mem_range]
  simp only [Bool.and_eq_true, decide_eq_true_eq]
  omega

theorem normalizeRows_nil : normalizeRows ([] : List Row) = [] := rfl

theorem calc_success_form (df : List Row)
    (h : 10 ≤ (normalizeRows df).length) :
    ∃ i is, middleIdx (normalizeRows df).length = i :: is ∧
      calculate_thermocline_advanced df =
        ThermoResult.success (thermoPayload (normalizeRows df) i is) := by
  have hdf : df ≠ [] := by
    intro hc
    rw [hc, normalizeRows_nil] at h
    exact absurd h (by decide)
  have hne : ¬ (df.isEmpty = true) := by
    rw [List.isEmpty_iff]
    exact hdf
  have hnlt : ¬ ((normalizeRows df).length < 10) := not_lt.2 h
  have h2mem : 2 ∈ middleIdx (normalizeRows df).length := by
    rw [mem_middleIdx]
    omega
  cases hmid : middleIdx (normalizeRows df).length with
  | nil => rw [hmid] at h2mem; cases h2mem
  | cons i is =>
    refine ⟨i, is, rfl, ?_⟩
    unfold calculate_thermocline_advanced
    rw [if_neg hne, if_neg hnlt, hmid]

/-- C3: a profile with fewer than 10 levels after normalization produces a
tagged failure with a non-empty human-readable reason (the embedding is a
total function, so no exception is possible), and a profile with at least
10 normalized levels produces a success result. -/
theorem thermocline_requires_ten_levels (df : List Row) :
    ((normalizeRows df).length < 10 →
      ∃ e, calculate_thermocline_advanced df = ThermoResult.failure e ∧
        0 < e.length) ∧
    (10 ≤ (normalizeRows df).length →
      ∃ r, calculate_thermocline_advanced df = ThermoResult.success r) := by
  constructor
  · intro hlt
    by_cases hdf : df = []
    · subst hdf
      exact ⟨"Insufficient data for thermocline calculation", rfl, by decide⟩
    · have hne : ¬ (df.isEmpty = true) := by
        rw [List.isEmpty_iff]
        exact hdf
      refine ⟨"Not enough data points (minimum 10 required)", ?_, by decide⟩
      unfold calculate_thermocline_advanced
      rw [if_neg hne, if_pos hlt]
  · intro hge
    obtain ⟨i, is, -, heq⟩ := calc_success_form df hge
    exact ⟨_, heq⟩

/-- Witness for C3: the 3-level profile is refused with a reason, the
10-level profile is analyzed. -/
theorem thermocline_requires_ten_levels_witness :
    (∃ e, calculate_thermocline_advanced wSmall = ThermoResult.failure e ∧
      0 < e.length) ∧
    (∃ r, calculate_thermocline_advanced wTen = ThermoResult.success r) :=
  ⟨(thermocline_requires_ten_levels wSmall).1 (by decide),
   (thermocline_requires_ten_levels wTen).2 (by decide)⟩

theorem getD_mem {l : List NRow} {i : ℕ} (h : i < l.length) :
    l.getD i dfltRow ∈ l := by
  rw [List.getD_eq_getElem _ _ h]
  exact List.getElem_mem h

theorem pairwise_getD_lt {l : List NRow} {i j : ℕ}
    (hpw : l.Pairwise (fun a b : NRow => a.pressure < b.pressure))
    (hi : i < l.length) (hj : j < l.length) (hij : i < j) :
    (l.getD i dfltRow).pressure < (l.getD j dfltRow).pressure := by
  rw [List.getD_eq_getElem _ _ hi, List.getD_eq_getElem _ _ hj]
  exact List.pairwise_iff_getElem.1 hpw i j hi hj hij

theorem thermoPayload_depth (d : List NRow) (i : ℕ) (is : List ℕ) :
    (thermoPayload d i is).thermocline_depth_dbar =
      (d.getD (idxmaxGo (smoothAt d) i is) dfltRow).pressure := rfl

theorem payload_depth_bounds (d : List NRow) (i : ℕ) (is : List ℕ)
    (hlen : 10 ≤ d.length)
    (hpw : d.Pairwise (fun a b : NRow => a.pressure < b.pressure))
    (hmid : middleIdx d.length = i :: is) :
    minPres d < (thermoPayload d i is).thermocline_depth_dbar ∧
      (thermoPayload d i is).thermocline_depth_dbar < maxPres d := by
  rw [thermoPayload_depth]
  set k := idxmaxGo (smoothAt d) i is with hk
  have hkmem : k ∈ middleIdx d.length := by
    rw [hmid]
    exact idxmaxGo_mem (smoothAt d) is i
  obtain ⟨hk2, hklt⟩ := mem_middleIdx.1 hkmem
  have hkn : k < d.length := by omega
  have h0n : 0 < d.length := by omega
  have hlastn : d.length - 1 < d.length := by omega
  constructor
  · have hmin : minPres d ≤ (d.getD 0 dfltRow).pressure :=
      minQ_le_mem (List.mem_map_of_mem _ (getD_mem h0n))
    have hlt := pairwise_getD_lt hpw h0n hkn (by omega)
    exact lt_of_le_of_lt hmin hlt
  · have hmax : (d.getD (d.length - 1) dfltRow).pressure ≤ maxPres d :=
      mem_le_maxQ (List.mem_map_of_mem _ (getD_mem hlastn))
    have hlt := pairwise_getD_lt hpw hkn hlastn (by omega)
    exact lt_of_lt_of_le hlt hmax

/-- C6: whenever the thermocline detector succeeds on a profile with at
least 10 normalized levels, the returned thermocline depth lies strictly
between the minimum and maximum pressure of the normalized profile. -/
theorem thermocline_depth_strict_bounds (df : List Row)
    (h : 10 ≤ (normalizeRows df).length) :
    ∃ r, calculate_thermocline_advanced df = ThermoResult.success r ∧
      minPres (normalizeRows df) < r.thermocline_depth_dbar ∧
      r.thermocline_depth_dbar < maxPres (normalizeRows df) := by
  obtain ⟨i, is, hmid, heq⟩ := calc_success_form df h
  exact ⟨_, heq,
    payload_depth_bounds (normalizeRows df) i is h
      (normalizeRows_pairwise_lt df) hmid⟩

/-- Witness for C6 at the concrete 10-level profile. -/
theorem thermocline_depth_strict_bounds_witness :
    ∃ r, calculate_thermocline_advanced wTen = ThermoResult.success r ∧
      minPres (normalizeRows wTen) < r.thermocline_depth_dbar ∧
      r.thermocline_depth_dbar < maxPres (normalizeRows wTen) :=
  thermocline_depth_strict_bounds wTen (by decide)

theorem payload_mld_eq (d : List NRow) (i : ℕ) (is : List ℕ) :
    (thermoPayload d i is).mixed_layer_depth_dbar =
      match d.find? (fun r => decide ((1 : ℚ)/5 <
          |r.temperature - (d.headD dfltRow).temperature|)) with
      | some r => r.pressure
      | none => 10 := rfl

/-- C1 counterexample: on the uniform-temperature profile with pressures
100..190 dbar the detector succeeds, yet the mixed-layer depth it returns
is the constant default 10 dbar, strictly below the minimum pressure 100:
the claimed bound min pressure ≤ MLD fails. -/
theorem mld_bounds_cx :
    (calculate_thermocline_advanced cxUniform).mldQ = some 10 ∧
    minPres (normalizeRows cxUniform) = 100 ∧
    ¬ (minPres (normalizeRows cxUniform) ≤
        ((calculate_thermocline_advanced cxUniform).mldQ).getD 0) := by
  decide

/-- C1 amended: for an accepted profile, when some normalized level's
temperature deviates from the surface temperature by more than 0.2 °C, the
returned MLD is a pressure of the profile, hence min pressure ≤ MLD ≤ max
pressure; when no level deviates, the returned MLD is the constant 10 dbar,
which may lie outside the profile's pressure range. -/
theorem mld_bounds_amended (df : List Row)
    (h : 10 ≤ (normalizeRows df).length) :
    ∃ r, calculate_thermocline_advanced df = ThermoResult.success r ∧
      ((∃ m ∈ normalizeRows df, (1 : ℚ)/5 <
          |m.temperature - ((normalizeRows df).headD dfltRow).temperature|) →
        minPres (normalizeRows df) ≤ r.mixed_layer_depth_dbar ∧
          r.mixed_layer_depth_dbar ≤ maxPres (normalizeRows df)) ∧
      ((∀ m ∈ normalizeRows df, ¬ ((1 : ℚ)/5 <
          |m.temperature - ((normalizeRows df).headD dfltRow).temperature|)) →
        r.mixed_layer_depth_dbar = 10) := by
  obtain ⟨i, is, -, heq⟩ := calc_success_form df h
  refine ⟨_, heq, ?_, ?_⟩
  · rintro ⟨m, hm, hgt⟩
    rw [payload_mld_eq]
    have hsome : ((normalizeRows df).find? (fun r : NRow =>
        decide ((1 : ℚ)/5 <
          |r.temperature - ((normalizeRows df).headD dfltRow).temperature|))
        ).isSome = true :=
      List.find?_isSome.2 ⟨m, hm, by simpa using hgt⟩
    obtain ⟨y, hy⟩ := Option.isSome_iff_exists.1 hsome
    rw [hy]
    have hymem := List.mem_of_find?_eq_some hy
    exact ⟨minQ_le_mem (List.mem_map_of_mem _ hymem),
      mem_le_maxQ (List.mem_map_of_mem _ hymem)⟩
  · intro hall
    rw [payload_mld_eq]
    have hnone : (normalizeRows df).find? (fun r : NRow =>
        decide ((1 : ℚ)/5 <
          |r.temperature - ((normalizeRows df).headD dfltRow).temperature|))
            = none :=
      List.find?_eq_none.2 fun x hx => by simpa using hall x hx
    rw [hnone]

/-- Witness for the amended C1 at the concrete 10-level profile, whose
temperatures do deviate from the surface value. -/
theorem mld_bounds_amended_witness :
    ∃ r, calculate_thermocline_advanced wTen = ThermoResult.success r ∧
      minPres (normalizeRows wTen) ≤ r.mixed_layer_depth_dbar ∧
      r.mixed_layer_depth_dbar ≤ maxPres (normalizeRows wTen) := by
  obtain ⟨r, heq, h1, -⟩ := mld_bounds_amended wTen (by decide)
  exact ⟨r, heq, h1 (by decide)⟩

theorem gradStep_nonneg (ab : NRow × NRow) : 0 ≤ gradStep ab := by
  unfold gradStep
  by_cases h : 1 < ab.2.pressure - ab.1.pressure
  · rw [if_pos h]
    exact div_nonneg (abs_nonneg _) (by linarith)
  · rw [if_neg h]

theorem gradients_nonneg (d : List NRow) : ∀ q ∈ gradients d, 0 ≤ q := by
  intro q hq
  unfold gradients at hq
  cases d with
  | nil => cases hq
  | cons a rest =>
    rcases List.mem_cons.1 hq with rfl | hq
    · exact le_refl 0
    · obtain ⟨ab, -, rfl⟩ := List.mem_map.1 hq
      exact gradStep_nonneg ab

theorem meanQ_nonneg {l : List ℚ} (h : ∀ q ∈ l, 0 ≤ q) : 0 ≤ meanQ l :=
  div_nonneg (List.sum_nonneg h) (Nat.cast_nonneg _)

theorem smooth3_mem_nonneg {g : List ℚ} (hg : ∀ q ∈ g, 0 ≤ q) :
    ∀ s ∈ smooth3 g, 0 ≤ s := by
  intro s hs
  unfold smooth3 at hs
  obtain ⟨i, -, rfl⟩ := List.mem_map.1 hs
  apply meanQ_nonneg
  intro q hq
  unfold window3 at hq
  by_cases hi : i = 0
  · rw [if_pos hi] at hq
    exact hg q (List.mem_of_mem_take hq)
  · rw [if_neg hi] at hq
    exact hg q (List.mem_of_mem_drop (List.mem_of_mem_take hq))

theorem smoothAt_nonneg (d : List NRow) (j : ℕ) : 0 ≤ smoothAt d j := by
  unfold smoothAt
  by_cases h : j < (smooth3 (gradients d)).length
  · rw [List.getD_eq_getElem _ _ h]
    exact smooth3_mem_nonneg (gradients_nonneg d) _ (List.getElem_mem h)
  · rw [List.getD_eq_default _ _ (by omega)]

theorem payload_strength_nonneg (d : List NRow) (i : ℕ) (is : List ℕ) :
    0 ≤ (thermoPayload d i is).thermocline_strength_deg_per_m :=
  smoothAt_nonneg d _

theorem payload_nsq_eq (d : List NRow) (i : ℕ) (is : List ℕ) :
    (thermoPayload d i is).stratification_N_squared =
      (981/100 : ℚ) / 1025 * (1/5000) *
        (-(thermoPayload d i is).thermocline_strength_deg_per_m) * 100 := rfl

theorem payload_nsq_nonpos (d : List NRow) (i : ℕ) (is : List ℕ) :
    (thermoPayload d i is).stratification_N_squared ≤ 0 := by
  have hs := smoothAt_nonneg d (idxmaxGo (smoothAt d) i is)
  show (981/100 : ℚ) / 1025 * (1/5000) *
      (-(smoothAt d (idxmaxGo (smoothAt d) i is))) * 100 ≤ 0
  nlinarith

theorem payload_buoyancy_zero (d : List NRow) (i : ℕ) (is : List ℕ) :
    (thermoPayload d i is).buoyancy_frequency_Hz = 0 := by
  have hn := payload_nsq_nonpos d i is
  show (if 0 < (thermoPayload d i is).stratification_N_squared then
      Rat.sqrt (max (thermoPayload d i is).stratification_N_squared 0)
    else 0) = 0
  rw [if_neg (not_lt.2 hn)]

theorem payload_stability_unstable (d : List NRow) (i : ℕ) (is : List ℕ) :
    (thermoPayload d i is).stability = "unstable" := by
  have hn := payload_nsq_nonpos d i is
  show (if 0 < (thermoPayload d i is).stratification_N_squared then "stable"
    else "unstable") = "unstable"
  rw [if_neg (not_lt.2 hn)]

/-- C9: for every accepted profile the stratification index is the fixed
constant (g/rho0) * alpha * (-strength) * 100 applied to the non-negative
maximum smoothed gradient, hence never positive; consequently the returned
buoyancy frequency is 0 and the stability label is "unstable". -/
theorem stratification_always_unstable (df : List Row)
    (h : 10 ≤ (normalizeRows df).length) :
    ∃ r, calculate_thermocline_advanced df = ThermoResult.success r ∧
      0 ≤ r.thermocline_strength_deg_per_m ∧
      r.stratification_N_squared =
        (981/100 : ℚ) / 1025 * (1/5000) *
          (-r.thermocline_strength_deg_per_m) * 100 ∧
      r.stratification_N_squared ≤ 0 ∧
      r.buoyancy_frequency_Hz = 0 ∧
      r.stability = "unstable" := by
  obtain ⟨i, is, -, heq⟩ := calc_success_form df h
  exact ⟨_, heq, payload_strength_nonneg _ i is, payload_nsq_eq _ i is,
    payload_nsq_nonpos _ i is, payload_buoyancy_zero _ i is,
    payload_stability_unstable _ i is⟩

/-- Witness for C9 at the concrete 10-level profile. -/
theorem stratification_always_unstable_witness :
    ∃ r, calculate_thermocline_advanced wTen = ThermoResult.success r ∧
      0 ≤ r.thermocline_strength_deg_per_m ∧
      r.stratification_N_squared =
        (981/100 : ℚ) / 1025 * (1/5000) *
          (-r.thermocline_strength_deg_per_m) * 100 ∧
      r.stratification_N_squared ≤ 0 ∧
      r.buoyancy_frequency_Hz = 0 ∧
      r.stability = "unstable" :=
  stratification_always_unstable wTen (by decide)

theorem payload_hasInv (d : List NRow) (i : ℕ) (is : List ℕ) :
    (thermoPayload d i is).has_temperature_inversion =
      ((invScanIdx d.length).find? fun j => decide (invAt d j)).isSome := rfl

theorem payload_invDepth (d : List NRow) (i : ℕ) (is : List ℕ) :
    (thermoPayload d i is).inversion_depth_dbar =
      match (invScanIdx d.length).find? (fun j => decide (invAt d j)) with
      | none => none
      | some j =>
        if (d.getD j dfltRow).pressure = 0 then none
        else some (d.getD j dfltRow).pressure := rfl

theorem find?_range'_eq_some {p : ℕ → Bool} : ∀ (len s j : ℕ), s ≤ j →
    j < s + len → p j = true → (∀ i, s ≤ i → i < j → p i = false) →
    (List.range' s len).find? p = some j := by
  intro len
  induction len with
  | zero =>
    intro s j h1 h2 _ _
    exact absurd h2 (by omega)
  | succ n ih =>
    intro s j h1 h2 hp hmin
    rw [List.range'_succ]
    by_cases hps : p s = true
    · have hj : j = s := by
        by_contra hne
        have hlt : s < j := by omega
        rw [hmin s (le_refl s) hlt] at hps
        cases hps
      rw [hj]
      exact List.find?_cons_of_pos _ hps
    · have hsj : s < j := by
        rcases Nat.lt_or_ge s j with hlt | hge
        · exact hlt
        · have : j = s := by omega
          rw [this] at hp
          exact absurd hp hps
      rw [List.find?_cons_of_neg _ hps]
      exact ih (s + 1) j (by omega) (by omega) hp
        fun i hi1 hi2 => hmin i (by omega) hi2

/-- C10: the inversion scan covers only interior indexes 1..n-2 of the
normalized frame; if no interior index is an inversion (in particular when
the only temperature increase deeper than 50 dbar is at the final level),
the result reports no inversion and a null depth, and otherwise the first
(shallowest) interior inversion deeper than 50 dbar is the one reported. -/
theorem temperature_inversion_interior_first (df : List Row)
    (h : 10 ≤ (normalizeRows df).length) :
    ∃ r, calculate_thermocline_advanced df = ThermoResult.success r ∧
      ((∀ j, j < (normalizeRows df).length - 1 → 1 ≤ j →
          ¬ invAt (normalizeRows df) j) →
        r.has_temperature_inversion = false ∧
          r.inversion_depth_dbar = none) ∧
      (∀ j, 1 ≤ j → j < (normalizeRows df).length - 1 →
        invAt (normalizeRows df) j →
        (∀ i, i < j → 1 ≤ i → ¬ invAt (normalizeRows df) i) →
        r.has_temperature_inversion = true ∧
          r.inversion_depth_dbar =
            some ((normalizeRows df).getD j dfltRow).pressure) := by
  obtain ⟨i, is, -, heq⟩ := calc_success_form df h
  refine ⟨_, heq, ?_, ?_⟩
  · intro hnone
    have hfind : ((invScanIdx (normalizeRows df).length).find?
        fun j => decide (invAt (normalizeRows df) j)) = none := by
      rw [List.find?_eq_none]
      intro x hx
      unfold invScanIdx at hx
      rw [List.mem_range'_1] at hx
      simp only [decide_eq_true_eq]
      exact hnone x (by omega) hx.1
    constructor
    · rw [payload_hasInv, hfind]
      rfl
    · rw [payload_invDepth, hfind]
  · intro j hj1 hjlt hinv hmin
    have hfind : ((invScanIdx (normalizeRows df).length).find?
        fun j => decide (invAt (normalizeRows df) j)) = some j := by
      unfold invScanIdx
      apply find?_range'_eq_some _ 1 j hj1 (by omega) (by simpa using hinv)
      intro x hx1 hx2
      simpa using hmin x hx2 hx1
    constructor
    · rw [payload_hasInv, hfind]
      rfl
    · rw [payload_invDepth, hfind]
      have hp : ¬ (((normalizeRows df).getD j dfltRow).pressure = 0) := by
        have h50 := hinv.2
        intro hc
        rw [hc] at h50
        exact absurd h50 (by norm_num)
      show (if ((normalizeRows df).getD j dfltRow).pressure = 0 then none
        else some ((normalizeRows df).getD j dfltRow).pressure) =
          some ((normalizeRows df).getD j dfltRow).pressure
      rw [if_neg hp]

/-- Witness for C10 at the concrete profile whose first interior inversion
is at index 8, pressure 160 dbar. -/
theorem temperature_inversion_interior_first_witness :
    ∃ r, calculate_thermocline_advanced wInv = ThermoResult.success r ∧
      r.has_temperature_inversion = true ∧
      r.inversion_depth_dbar = some 160 := by
  obtain ⟨r, heq, -, hfirst⟩ :=
    temperature_inversion_interior_first wInv (by decide)
  obtain ⟨h1, h2⟩ := hfirst 8 (by decide) (by decide) (by decide) (by decide)
  refine ⟨r, heq, h1, ?_⟩
  rw [h2]
  decide

/-- C8: the time decoder passes native timestamps through unchanged,
parses string-typed values generically (falling back to the epoch when the
parse fails), treats every other value as a day-offset added to the
1950-01-01 epoch, maps an unconvertible value to the epoch, and agrees
with the decoding rule written from the spec; being a total function it
never fails the surrounding decode. -/
theorem julian_decode_contract (parse : String → Option ℚ) :
    (∀ t, julianToDatetime parse (JuldValue.datetime64 t) = t) ∧
    (∀ s, julianToDatetime parse (JuldValue.strval s) =
      (parse s).getD argoEpoch) ∧
    (∀ x, julianToDatetime parse (JuldValue.numeric x) =
      argoEpoch + x * 86400) ∧
    (julianToDatetime parse JuldValue.unconvertible = argoEpoch) ∧
    (∀ v, julianToDatetime parse v = specTimeDecode parse v) := by
  refine ⟨fun t => rfl, fun s => ?_, fun x => rfl, rfl, fun v => ?_⟩
  · cases h : parse s <;> simp [julianToDatetime, h]
  · cases v <;> rfl

/-- C5 counterexample: the extraction loop keeps a measurement whose QC
flags are 4 (bad) — outside the typical accepted set {1, 2} — because no
QC policy parameter exists anywhere in `extract_profiles`; the filter
written from the spec's words would have dropped it had a policy been
supplied. -/
theorem qc_policy_cx :
    decodeLevels 1 apBadQc = [mBadQc] ∧
    mBadQc.temp_qc = some 4 ∧ (4 : ℤ) ∉ ([1, 2] : List ℤ) ∧
    specQcFilter [1, 2] [mBadQc] = [] := by
  decide

/-- C5 amended: the extractor has no QC policy parameter and never drops a
measurement because of QC flags: the retained (pressure, temperature,
salinity) triples are unchanged under any replacement of the two QC
arrays; in particular absent QC flags pass through unfiltered and no
constant QC policy is applied. -/
theorem qc_flags_never_filter (n : ℕ) (ap : ArchiveProfile)
    (tq sq : List (Option ℤ)) :
    (decodeLevels n { ap with temp_qc := tq, sal_qc := sq }).map coreOf =
      (decodeLevels n ap).map coreOf := by
  unfold decodeLevels
  rw [List.map_filterMap, List.map_filterMap]
  congr 1
  funext i
  cases ap.pres.getD i none <;> cases ap.temp.getD i none <;>
    cases ap.psal.getD i none <;> simp [coreOf]

theorem getD_replicate_none {α : Type} (n i : ℕ) :
    (List.replicate n (none : Option α)).getD i none = none := by
  by_cases h : i < n
  · rw [List.getD_eq_getElem _ _ (by simpa using h)]
    simp
  · rw [List.getD_eq_default _ _ (by simpa using h)]

theorem pad_nil {α : Type} (n : ℕ) :
    pad n ([] : List (Option α)) = List.replicate n none := by
  unfold pad
  simp

theorem pad_cons {α : Type} (n : ℕ) (x : Option α) (xs : List (Option α)) :
    pad (n + 1) (x :: xs) = x :: pad n xs := by
  unfold pad
  simp only [List.cons_append, List.length_cons]
  have h : n + 1 - (xs.length + 1) = n - xs.length := by omega
  rw [h]

theorem getD_succ_tail {α : Type} (l : List (Option α)) (i : ℕ) :
    l.getD (i + 1) none = l.tail.getD i none := by
  cases l <;> rfl

theorem decodeLevels_pad_core : ∀ (lv : List Meas) (n : ℕ) (lat lon : ℚ)
    (j : JuldValue) (tq sq : List (Option ℤ)), lv.length ≤ n →
    (decodeLevels n
      { latitude := lat, longitude := lon, juld := j,
        pres := pad n (lv.map fun m => some m.pressure),
        temp := pad n (lv.map fun m => some m.temperature),
        psal := pad n (lv.map fun m => some m.salinity),
        temp_qc := tq, sal_qc := sq }).map coreOf = lv.map coreOf := by
  intro lv
  induction lv with
  | nil =>
    intro n lat lon j tq sq _
    unfold decodeLevels
    rw [List.map_filterMap]
    apply List.filterMap_eq_nil_iff.2
    intro i _
    simp only [List.map_nil, pad_nil, getD_replicate_none]
    rfl
  | cons m lv ih =>
    intro n lat lon j tq sq hlen
    cases n with
    | zero => exact absurd hlen (by simp)
    | succ k =>
      simp only [List.map_cons]
      rw [pad_cons, pad_cons, pad_cons]
      unfold decodeLevels
      rw [List.range_succ_eq_map, List.filterMap_cons, List.filterMap_map]
      simp only [List.getD_cons_zero, Function.comp_def, List.getD_cons_succ,
        getD_succ_tail]
      rw [List.map_cons]
      have htail := ih k lat lon j tq.tail sq.tail (by simpa using hlen)
      unfold decodeLevels at htail
      rw [htail]
      rfl

theorem encodeQcCell_writable (g t : ℤ) (h : t ∈ qcWritableFlags) :
    encodeQcCell g (some t) = some t := by
  have hred : encodeQcCell g (some t) = qcCellView (wrap8 t) := rfl
  rw [hred]
  simp only [qcWritableFlags, List.mem_cons, List.not_mem_nil, or_false] at h
  rcases h with rfl | rfl | rfl | rfl | rfl | rfl | rfl <;> decide

theorem decodeLevels_pad_qc : ∀ (lv : List Meas) (n : ℕ) (lat lon : ℚ)
    (j : JuldValue) (g : ℤ), lv.length ≤ n →
    (∀ m ∈ lv, (∃ t ∈ qcWritableFlags, m.temp_qc = some t) ∧
      (∃ s ∈ qcWritableFlags, m.sal_qc = some s)) →
    decodeLevels n
      { latitude := lat, longitude := lon, juld := j,
        pres := pad n (lv.map fun m => some m.pressure),
        temp := pad n (lv.map fun m => some m.temperature),
        psal := pad n (lv.map fun m => some m.salinity),
        temp_qc := pad n (lv.map fun m => encodeQcCell g m.temp_qc),
        sal_qc := pad n (lv.map fun m => encodeQcCell g m.sal_qc) } = lv := by
  intro lv
  induction lv with
  | nil =>
    intro n lat lon j g _ _
    unfold decodeLevels
    apply List.filterMap_eq_nil_iff.2
    intro i _
    simp only [List.map_nil, pad_nil, getD_replicate_none]
  | cons m lv ih =>
    intro n lat lon j g hlen hq
    obtain ⟨⟨t, ht, htm⟩, ⟨s, hsOk, hsm⟩⟩ := hq m (List.mem_cons_self m lv)
    cases n with
    | zero => exact absurd hlen (by simp)
    | succ k =>
      simp only [List.map_cons]
      rw [pad_cons, pad_cons, pad_cons, pad_cons, pad_cons]
      unfold decodeLevels
      rw [List.range_succ_eq_map, List.filterMap_cons, List.filterMap_map]
      simp only [List.getD_cons_zero, Function.comp_def, List.getD_cons_succ]
      rw [htm, hsm, encodeQcCell_writable g t ht, encodeQcCell_writable g s hsOk]
      have htail := ih k lat lon j g (by simpa using hlen)
        fun x hx => hq x (List.mem_cons_of_mem m hx)
      unfold decodeLevels at htail
      rw [htail]
      congr 1
      have hm : m = ⟨m.pressure, m.temperature, m.salinity, some t, some s⟩ := by
        rw [← htm, ← hsm]
      exact hm.symm

theorem foldl_maxLevels_init : ∀ (ps : List Profile) (a : ℕ),
    a ≤ ps.foldl (fun m p => max m p.levels.length) a := by
  intro ps
  induction ps with
  | nil => intro a; exact le_refl a
  | cons p ps ih =>
    intro a
    exact le_trans (le_max_left a p.levels.length) (ih _)

theorem le_maxLevels_foldl : ∀ (ps : List Profile) (a : ℕ) (p : Profile),
    p ∈ ps → p.levels.length ≤ ps.foldl (fun m q => max m q.levels.length) a := by
  intro ps
  induction ps with
  | nil => intro a p hp; cases hp
  | cons q ps ih =>
    intro a p hp
    rcases List.mem_cons.1 hp with rfl | hp
    · exact le_trans (le_max_right a p.levels.length) (foldl_maxLevels_init ps _)
    · exact ih _ p hp

theorem le_maxLevels {ps : List Profile} {p : Profile} (hp : p ∈ ps) :
    p.levels.length ≤ maxLevels ps :=
  le_maxLevels_foldl ps 0 p hp

theorem forall2_map_self {α : Type} {f : α → α} {R : α → α → Prop} :
    ∀ {l : List α}, (∀ x ∈ l, R (f x) x) → List.Forall₂ R (l.map f) l := by
  intro l
  induction l with
  | nil => intro _; exact List.Forall₂.nil
  | cons a l ih =>
    intro h
    exact List.Forall₂.cons (h a (List.mem_cons_self a l))
      (ih fun x hx => h x (List.mem_cons_of_mem a hx))

theorem encode_timestamp_eq (parse : String → Option ℚ) (garbage : ℤ)
    (wT wS : Bool) (n : ℕ) (p : Profile) :
    (decodeProfile parse n (encodeProfile garbage wT wS n p)).timestamp
      = p.timestamp := by
  show julianToDatetime parse
    (JuldValue.numeric (p.timestamp / 86400)) = p.timestamp
  have hred : julianToDatetime parse (JuldValue.numeric (p.timestamp / 86400))
      = argoEpoch + p.timestamp / 86400 * 86400 := rfl
  rw [hred]
  unfold argoEpoch
  rw [zero_add, div_mul_cancel₀]
  norm_num

theorem decode_encode_profile_core (parse : String → Option ℚ) (garbage : ℤ)
    (wT wS : Bool) (n : ℕ) (p : Profile) (hn : p.levels.length ≤ n)
    (hs : p.levels.Pairwise (fun a b : Meas => a.pressure < b.pressure)) :
    (decodeProfile parse n
        (encodeProfile garbage wT wS n p)).levels.map coreOf
      = p.levels.map coreOf := by
  have hsorted : p.levels.Pairwise measLe := hs.imp fun h => le_of_lt h
  have hsort_eq : p.levels.insertionSort measLe = p.levels :=
    List.Sorted.insertionSort_eq hsorted
  show (decodeLevels n (encodeProfile garbage wT wS n p)).map coreOf
    = p.levels.map coreOf
  unfold encodeProfile
  rw [hsort_eq]
  exact decodeLevels_pad_core p.levels n p.latitude p.longitude _ _ _ hn

theorem decode_encode_profile_full (parse : String → Option ℚ) (garbage : ℤ)
    (n : ℕ) (p : Profile) (hn : p.levels.length ≤ n)
    (hs : p.levels.Pairwise (fun a b : Meas => a.pressure < b.pressure))
    (hq : ∀ m ∈ p.levels, (∃ t ∈ qcWritableFlags, m.temp_qc = some t) ∧
      (∃ s ∈ qcWritableFlags, m.sal_qc = some s)) :
    (decodeProfile parse n (encodeProfile garbage true true n p)).levels
      = p.levels := by
  have hsorted : p.levels.Pairwise measLe := hs.imp fun h => le_of_lt h
  have hsort_eq : p.levels.insertionSort measLe = p.levels :=
    List.Sorted.insertionSort_eq hsorted
  show decodeLevels n (encodeProfile garbage true true n p) = p.levels
  unfold encodeProfile
  rw [hsort_eq]
  exact decodeLevels_pad_qc p.levels n p.latitude p.longitude _ garbage hn hq

/-- C2 counterexample: a normalized one-level profile carrying the
legitimate archive flag 9 (missing) loses both of its QC flags through the
round trip — the written 9 aliases the int8 `fill_value=9`, reads back
masked, and the decoder's shared try/except then drops the PSAL flag with
it — although pressure, temperature and salinity survive; so the claim
that QC flags are reproduced identically fails. -/
theorem netcdf_qc_round_trip_cx :
    (psQc9.headD dfltProfile).levels.Pairwise
      (fun a b : Meas => a.pressure < b.pressure) ∧
    (((decodeArchive (fun _ => none) (encodeArchive 0 psQc9)).headD
        dfltProfile).levels.map coreOf =
      (psQc9.headD dfltProfile).levels.map coreOf) ∧
    ((((decodeArchive (fun _ => none) (encodeArchive 0 psQc9)).headD
        dfltProfile).levels.headD dfltMeas).temp_qc = none) ∧
    ((((decodeArchive (fun _ => none) (encodeArchive 0 psQc9)).headD
        dfltProfile).levels.headD dfltMeas).sal_qc = none) ∧
    (((psQc9.headD dfltProfile).levels.headD dfltMeas).temp_qc = some 9) ∧
    (((psQc9.headD dfltProfile).levels.headD dfltMeas).sal_qc = some 1) := by
  decide

/-- C2 amended: decoding the archive produced by encoding a collection of
normalized profiles always reproduces the pressure, temperature and
salinity of every measurement exactly and every profile's timestamp within
one second after day-offset re-encoding from the 1950-01-01 epoch, for
every value the unspecified NaN-to-int8 cast may take; the QC flags are
reproduced identically provided every level's flags are present with
values in the writable flag set {0,1,2,3,4,5,8} — a flag equal to the int8
fill 9, or an absent flag inside a written column, does not survive the
masked read. -/
theorem netcdf_round_trip_amended (parse : String → Option ℚ) (garbage : ℤ)
    (ps : List Profile)
    (hs : ∀ p ∈ ps,
      p.levels.Pairwise (fun a b : Meas => a.pressure < b.pressure)) :
    List.Forall₂ (fun q p : Profile =>
        q.levels.map coreOf = p.levels.map coreOf ∧
        |q.timestamp - p.timestamp| ≤ 1)
      (decodeArchive parse (encodeArchive garbage ps)) ps ∧
    ((∀ p ∈ ps, ∀ m ∈ p.levels,
        (∃ t ∈ qcWritableFlags, m.temp_qc = some t) ∧
        (∃ s ∈ qcWritableFlags, m.sal_qc = some s)) →
      List.Forall₂ (fun q p : Profile =>
          q.levels = p.levels ∧ |q.timestamp - p.timestamp| ≤ 1)
        (decodeArchive parse (encodeArchive garbage ps)) ps) := by
  constructor
  · show List.Forall₂ _
      ((ps.map (encodeProfile garbage (hasTempQcCol ps) (hasSalQcCol ps)
        (maxLevels ps))).map (decodeProfile parse (maxLevels ps))) ps
    rw [List.map_map]
    apply forall2_map_self
    intro p hp
    refine ⟨decode_encode_profile_core parse garbage _ _ (maxLevels ps) p
      (le_maxLevels hp) (hs p hp), ?_⟩
    show |(decodeProfile parse (maxLevels ps)
      (encodeProfile garbage (hasTempQcCol ps) (hasSalQcCol ps)
        (maxLevels ps) p)).timestamp - p.timestamp| ≤ 1
    rw [encode_timestamp_eq]
    simp
  · intro hq
    have hcols : (hasTempQcCol ps = true ∧ hasSalQcCol ps = true) ∨
        (∀ p ∈ ps, p.levels = []) := by
      by_cases hT : hasTempQcCol ps = true
      · by_cases hS : hasSalQcCol ps = true
        · exact Or.inl ⟨hT, hS⟩
        · refine Or.inr fun p hp => ?_
          cases hlv : p.levels with
          | nil => rfl
          | cons m lv =>
            exfalso
            obtain ⟨-, s, -, hsm⟩ := hq p hp m (by
              rw [hlv]; exact List.mem_cons_self m lv)
            refine hS ?_
            unfold hasSalQcCol
            rw [List.any_eq_true]
            refine ⟨p, hp, ?_⟩
            rw [List.any_eq_true]
            refine ⟨m, by rw [hlv]; exact List.mem_cons_self m lv, ?_⟩
            rw [hsm]
            rfl
      · refine Or.inr fun p hp => ?_
        cases hlv : p.levels with
        | nil => rfl
        | cons m lv =>
          exfalso
          obtain ⟨⟨t, -, htm⟩, -⟩ := hq p hp m (by
            rw [hlv]; exact List.mem_cons_self m lv)
          refine hT ?_
          unfold hasTempQcCol
          rw [List.any_eq_true]
          refine ⟨p, hp, ?_⟩
          rw [List.any_eq_true]
          refine ⟨m, by rw [hlv]; exact List.mem_cons_self m lv, ?_⟩
          rw [htm]
          rfl
    show List.Forall₂ _
      ((ps.map (encodeProfile garbage (hasTempQcCol ps) (hasSalQcCol ps)
        (maxLevels ps))).map (decodeProfile parse (maxLevels ps))) ps
    rw [List.map_map]
    apply forall2_map_self
    intro p hp
    refine ⟨?_, ?_⟩
    · rcases hcols with ⟨hT, hS⟩ | hempty
      · rw [hT, hS]
        exact decode_encode_profile_full parse garbage (maxLevels ps) p
          (le_maxLevels hp) (hs p hp) (hq p hp)
      · have hcore := decode_encode_profile_core parse garbage
          (hasTempQcCol ps) (hasSalQcCol ps) (maxLevels ps) p
          (le_maxLevels hp) (hs p hp)
        rw [hempty p hp] at hcore ⊢
        simp only [List.map_nil] at hcore
        exact List.map_eq_nil_iff.1 hcore
    · show |(decodeProfile parse (maxLevels ps)
        (encodeProfile garbage (hasTempQcCol ps) (hasSalQcCol ps)
          (maxLevels ps) p)).timestamp - p.timestamp| ≤ 1
      rw [encode_timestamp_eq]
      simp

/-- Witness for the amended C2 at a concrete one-profile collection whose
flags are all present and writable. -/
theorem netcdf_round_trip_amended_witness :
    List.Forall₂ (fun q p : Profile =>
        q.levels = p.levels ∧ |q.timestamp - p.timestamp| ≤ 1)
      (decodeArchive (fun _ => none) (encodeArchive 0 psRoundQc)) psRoundQc :=
  (netcdf_round_trip_amended (fun _ => none) 0 psRoundQc (by decide)).2
    (by decide)

end FloatChat
